import Mathlib

/-!
Shallow embedding of `lkml-to-mbox.py` and verification of its specification.

The program walks a git history with one mail message per commit, reading the
checked-out message file `m` and appending it, with a synthesized mbox
envelope line, to the file `mbox`.  The embedding models:

  * `generate_envelope_from` (source lines 31-66), including the Python
    stdlib helpers it calls: `re.sub(r'.*<|>.*', '', s)`,
    `email.utils.parsedate_tz`, `email.utils.mktime_tz`,
    `datetime.datetime.fromtimestamp` and `datetime.ctime`;
  * `append_msg_to_mbox` (lines 68-87), with the parsed message abstracted
    to the three observations the code makes of it: `msg.get('From')`,
    `msg.get('Date')` and `msg.as_string()`;
  * the `__main__` block (lines 89-110), with the external git checkout
    state modelled as the list of messages of the current and all earlier
    revisions, and `git checkout -q HEAD^` succeeding exactly when an
    earlier revision exists.

Machine integers do not occur (Python ints are unbounded), so `Int`/`Nat`
are exact.  Exceptions are modelled with `Except`/`Option`.  The local
timezone that `datetime.fromtimestamp` consults is an environment input and
is threaded through as an explicit offset-in-seconds parameter (DST is not
modelled; the offset stands for whatever offset the environment applies).
String operations are modelled on ASCII (the Python originals additionally
handle non-ASCII case folding and whitespace, which the claims never
exercise).
-/

set_option autoImplicit false

deriving instance DecidableEq for Except

namespace LkmlToMbox

/-! ### Python string primitives -/

/-- Whitespace characters recognised by Python `str.split()` (ASCII part). -/
def isPySpace (c : Char) : Bool :=
  c == ' ' || c == '\t' || c == '\n' || c == '\x0d' || c == '\x0b' || c == '\x0c'

/-- Accumulator-based worker for `str.split()` with no separator:
runs of whitespace delimit words, empty words are dropped. -/
def wordsAux : List Char → List Char → List (List Char)
  | [], acc => if acc.isEmpty then [] else [acc.reverse]
  | c :: cs, acc =>
    if isPySpace c then
      if acc.isEmpty then wordsAux cs [] else acc.reverse :: wordsAux cs []
    else wordsAux cs (c :: acc)

/-- Python `s.split()` (whitespace split, empties dropped). -/
def pyWords (s : String) : List String :=
  (wordsAux s.data []).map (fun w => String.mk w)

/-- Worker for `str.split(sep)` with a one-character separator:
splits at every occurrence, keeping empty pieces. -/
def splitOnCharAux (sep : Char) : List Char → List Char → List (List Char)
  | [], acc => [acc.reverse]
  | c :: cs, acc =>
    if c == sep then acc.reverse :: splitOnCharAux sep cs []
    else splitOnCharAux sep cs (c :: acc)

/-- Python `s.split(sep)` for a one-character separator. -/
def splitOnChar (sep : Char) (s : String) : List String :=
  (splitOnCharAux sep s.data []).map (fun w => String.mk w)

/-- Index of the first occurrence of a character (Python `s.find(c)`,
with `none` for Python's `-1`). -/
def idxOfChar (x : Char) : List Char → Option Nat
  | [] => none
  | c :: cs => if c == x then some 0 else (idxOfChar x cs).map (fun i => i + 1)

/-- Index of the last occurrence of a character (Python `s.rfind(c)`,
with `none` for Python's `-1`). -/
def lastIdxOf (x : Char) : List Char → Option Nat
  | [] => none
  | c :: cs =>
    match lastIdxOf x cs with
    | some i => some (i + 1)
    | none => if c == x then some 0 else none

/-- Python `s[:n]`. -/
def strTake (s : String) (n : Nat) : String := String.mk (s.data.take n)

/-- Python `s[n:]`. -/
def strDrop (s : String) (n : Nat) : String := String.mk (s.data.drop n)

/-- Python `s[:-1]`. -/
def strDropLast (s : String) : String := String.mk (s.data.dropLast)

/-- The last character of a string, if any (`s[-1]` guarded by nonemptiness). -/
def lastChar (s : String) : Option Char := s.data.getLast?

/-- The first character of a string, if any (`s[0]` guarded by nonemptiness). -/
def firstChar (s : String) : Option Char := s.data.head?

/-- Python `s.lower()` (ASCII). -/
def lowerStr (s : String) : String := String.mk (s.data.map Char.toLower)

/-- Python `s.upper()` (ASCII). -/
def upperStr (s : String) : String := String.mk (s.data.map Char.toUpper)

/-- Digit-run parser for Python `int()`: digits with single underscores
allowed between digits only.  The first character has already been checked
to be a digit by the caller. -/
def pyDigitsAux : List Char → Nat → Option Nat
  | [], acc => some acc
  | c :: cs, acc =>
    if c.isDigit then pyDigitsAux cs (acc * 10 + (c.toNat - 48))
    else if c == '_' then
      match cs with
      | [] => none
      | d :: cs2 =>
        if d.isDigit then pyDigitsAux cs2 (acc * 10 + (d.toNat - 48)) else none
    else none

/-- Python `int(s)` for a decimal string: optional surrounding whitespace,
optional sign, then a digit run (underscores permitted between digits);
`none` models `ValueError`. -/
def pyInt (s : String) : Option Int :=
  let t1 := s.data.dropWhile isPySpace
  let t := (t1.reverse.dropWhile isPySpace).reverse
  match t with
  | [] => none
  | '+' :: rest =>
    match rest with
    | [] => none
    | c :: _ => if c.isDigit then (pyDigitsAux rest 0).map (fun n => (n : Int)) else none
  | '-' :: rest =>
    match rest with
    | [] => none
    | c :: _ => if c.isDigit then (pyDigitsAux rest 0).map (fun n => -(n : Int)) else none
  | c :: _ => if c.isDigit then (pyDigitsAux t 0).map (fun n => (n : Int)) else none

/-! ### The regular expression `re.sub(r'.*<|>.*', '', s)` (source line 54)

Python `re` semantics: matches are found left to right; at each position the
alternative `.*<` is preferred, with greedy `.*` (which cannot cross a
newline), so it matches up to the last `<` of the current line; otherwise
`>.*` matches a `>` at the current position together with the rest of the
line.  Every match is replaced by the empty string. -/

/-- The portion of the character list before the next newline
(the reach of `.` in Python regular expressions). -/
def takeLine (cs : List Char) : List Char := cs.takeWhile (fun c => c != '\n')

/-- One left-to-right pass of `re.sub(r'.*<|>.*', '', s)`.  The fuel is an
upper bound on the number of steps; every step consumes at least one
character, so fuel equal to the length of the list suffices. -/
def reSubAux : Nat → List Char → List Char
  | 0, _ => []
  | _ + 1, [] => []
  | fuel + 1, c :: cs =>
    match lastIdxOf '<' (takeLine (c :: cs)) with
    | some i => reSubAux fuel ((c :: cs).drop (i + 1))
    | none =>
      if c == '>' then reSubAux fuel ((c :: cs).drop (takeLine (c :: cs)).length)
      else c :: reSubAux fuel cs

/-- `re.sub(r'.*<|>.*', '', s)` as used on source line 54. -/
def pySub (s : String) : String := String.mk (reSubAux s.data.length s.data)

/-! ### `email.utils.parsedate_tz` (stdlib `email._parseaddr`)

Transcribed from CPython `email/_parseaddr.py`: `_parsedate_tz` followed by
the public `parsedate_tz` wrapper, which replaces a `None` timezone offset
by `0`.  Of the 10-tuple returned by the Python code, the constant entries
`(0, 1, -1)` at positions 6-8 are never consumed by `mktime_tz`, so the
embedding keeps only the seven meaningful fields. -/

/-- Day-of-week names recognised by `_parsedate_tz`. -/
def pyDaynames : List String := ["mon", "tue", "wed", "thu", "fri", "sat", "sun"]

/-- Month names recognised by `_parsedate_tz` (first twelve abbreviated,
then the full names; `index` takes the first occurrence). -/
def pyMonthnames : List String :=
  ["jan", "feb", "mar", "apr", "may", "jun", "jul",
   "aug", "sep", "oct", "nov", "dec",
   "january", "february", "march", "april", "may", "june", "july",
   "august", "september", "october", "november", "december"]

/-- First index of a string in a list (Python `list.index`, total). -/
def idxInList (x : String) : List String → Option Nat
  | [] => none
  | y :: ys => if y == x then some 0 else (idxInList x ys).map (fun i => i + 1)

/-- The `_timezones` table of `email._parseaddr` (values in "hundreds" form,
converted to seconds later exactly as the Python code does). -/
def tzTable (s : String) : Option Int :=
  if s == "UT" then some 0 else if s == "UTC" then some 0
  else if s == "GMT" then some 0 else if s == "Z" then some 0
  else if s == "AST" then some (-400) else if s == "ADT" then some (-300)
  else if s == "EST" then some (-500) else if s == "EDT" then some (-400)
  else if s == "CST" then some (-600) else if s == "CDT" then some (-500)
  else if s == "MST" then some (-700) else if s == "MDT" then some (-600)
  else if s == "PST" then some (-800) else if s == "PDT" then some (-700)
  else none

/-- The meaningful fields of the 10-tuple produced by `parsedate_tz`:
year, month, day, hour, minute, second and the timezone offset in seconds
(`none` encodes Python `None`, produced by `-0000` or an unparsable zone). -/
structure DateTuple where
  yy : Int
  mm : Int
  dd : Int
  thh : Int
  tmm : Int
  tss : Int
  tzoff : Option Int
deriving DecidableEq

/-- Python truthiness test `if s[-1] == ','` packaged as a trim. -/
def trimTrailingComma (s : String) : String :=
  if lastChar s == some ',' then strDropLast s else s

/-- Embedding of `email._parseaddr._parsedate_tz`. -/
def parsedate_tz0 (data : String) : Option DateTuple :=
  if data == "" then none else
  let w0 := pyWords data
  if w0.isEmpty then none else
  let first := w0.headD ""
  let w1 :=
    if lastChar first == some ',' || lowerStr first ∈ pyDaynames then w0.tail
    else
      match lastIdxOf ',' first.data with
      | some i => strDrop first (i + 1) :: w0.tail
      | none => w0
  let w2 :=
    if w1.length == 3 then
      let stuff := splitOnChar '-' (w1.headD "")
      if stuff.length == 3 then stuff ++ w1.tail else w1
    else w1
  let w3 :=
    if w2.length == 4 then
      let s := w2.getD 3 ""
      let i : Int :=
        match idxOfChar '+' s.data with
        | some j => (j : Int)
        | none =>
          match idxOfChar '-' s.data with
          | some j => (j : Int)
          | none => -1
      if i > 0 then w2.take 3 ++ [strTake s i.toNat, strDrop s i.toNat]
      else w2 ++ [""]
    else w2
  if w3.length < 5 then none else
  let dd0 := w3.getD 0 ""
  let mm0 := w3.getD 1 ""
  let yy0 := w3.getD 2 ""
  let tm0 := w3.getD 3 ""
  let tz0 := w3.getD 4 ""
  if dd0 == "" || mm0 == "" || yy0 == "" then none else
  let mmL := lowerStr mm0
  let swapped : Option (String × String) :=
    if mmL ∈ pyMonthnames then some (dd0, mmL)
    else
      let mm2 := lowerStr dd0
      if mm2 ∈ pyMonthnames then some (mmL, mm2) else none
  match swapped with
  | none => none
  | some (dd1, mmStr) =>
    let mmIdx := (idxInList mmStr pyMonthnames).getD 0 + 1
    let mmN : Int := if mmIdx > 12 then (mmIdx : Int) - 12 else (mmIdx : Int)
    let dd2 := trimTrailingComma dd1
    let p :=
      match idxOfChar ':' yy0.data with
      | some i => if i > 0 then (tm0, yy0) else (yy0, tm0)
      | none => (yy0, tm0)
    let yy1 := p.fst
    let tm1 := p.snd
    let yyT : Option String :=
      if lastChar yy1 == some ',' then
        let y := strDropLast yy1
        if y == "" then none else some y
      else some yy1
    match yyT with
    | none => none
    | some yy2 =>
      let q :=
        if ((firstChar yy2).map Char.isDigit).getD false then (yy2, tz0)
        else (tz0, yy2)
      let yy3 := q.fst
      let tz1 := q.snd
      let tm2 := trimTrailingComma tm1
      let hms : Option (String × String × String) :=
        match splitOnChar ':' tm2 with
        | [a, b] => some (a, b, "0")
        | [a, b, c] => some (a, b, c)
        | [a] =>
          if a.data.contains '.' then
            match splitOnChar '.' a with
            | [x, y] => some (x, y, "0")
            | [x, y, z] => some (x, y, z)
            | _ => none
          else none
        | _ => none
      match hms with
      | none => none
      | some (thh0, tmm0, tss0) =>
        match pyInt yy3, pyInt dd2, pyInt thh0, pyInt tmm0, pyInt tss0 with
        | some yyI, some ddI, some thhI, some tmmI, some tssI =>
          let yyF := if yyI < 100 then (if yyI > 68 then yyI + 1900 else yyI + 2000) else yyI
          let tzU := upperStr tz1
          let tzoffset0 : Option Int :=
            match tzTable tzU with
            | some v => some v
            | none =>
              match pyInt tzU with
              | some v => if v == 0 && firstChar tzU == some '-' then none else some v
              | none => none
          let tzFinal : Option Int :=
            match tzoffset0 with
            | none => none
            | some v =>
              if v == 0 then some 0
              else
                let sign : Int := if v < 0 then -1 else 1
                let a : Int := if v < 0 then -v else v
                some (sign * (a.ediv 100 * 3600 + a.emod 100 * 60))
          some ⟨yyF, mmN, ddI, thhI, tmmI, tssI, tzFinal⟩
        | _, _, _, _, _ => none

/-- Embedding of the public `email.utils.parsedate_tz`: a failed parse
returns `None`; a missing zone offset is replaced by `0`. -/
def parsedate_tz (data : String) : Option DateTuple :=
  match parsedate_tz0 data with
  | none => none
  | some t => some { t with tzoff := some (t.tzoff.getD 0) }

/-! ### `calendar.timegm`, `email.utils.mktime_tz`, `datetime.fromtimestamp`
and `datetime.ctime` -/

/-- Days of the proleptic Gregorian calendar before January 1 of a year
(CPython `datetime._days_before_year`). -/
def daysBeforeYear (y : Int) : Int :=
  let z := y - 1
  z * 365 + z.ediv 4 - z.ediv 100 + z.ediv 400

/-- Gregorian leap-year test. -/
def isLeapYear (y : Int) : Bool :=
  y.emod 4 == 0 && (y.emod 100 != 0 || y.emod 400 == 0)

/-- Days in a year before the first of the given month
(CPython `datetime._days_before_month`). -/
def daysBeforeMonth (leap : Bool) (m : Int) : Int :=
  (if m ≤ 1 then 0 else if m = 2 then 31 else if m = 3 then 59
   else if m = 4 then 90 else if m = 5 then 120 else if m = 6 then 151
   else if m = 7 then 181 else if m = 8 then 212 else if m = 9 then 243
   else if m = 10 then 273 else if m = 11 then 304 else 334)
  + (if leap && m > 2 then 1 else 0)

/-- Proleptic Gregorian ordinal of a date, with January 1 of year 1 as
ordinal 1 (CPython `datetime.date.toordinal`). -/
def toordinal (y m d : Int) : Int :=
  daysBeforeYear y + daysBeforeMonth (isLeapYear y) m + d

/-- The ordinal of the Unix epoch, 1970-01-01. -/
def epochOrd : Int := 719163

/-- Embedding of `calendar.timegm` on the first six tuple entries.
`datetime.date(year, month, 1)` raises `ValueError` outside the supported
year and month ranges, modelled as `none`; the day is added without
validation, exactly as the Python code does. -/
def timegm (t : DateTuple) : Option Int :=
  if 1 ≤ t.yy && t.yy ≤ 9999 && 1 ≤ t.mm && t.mm ≤ 12 then
    some ((((toordinal t.yy t.mm 1 - epochOrd + t.dd - 1) * 24 + t.thh) * 60
      + t.tmm) * 60 + t.tss)
  else none

/-- Embedding of `email.utils.mktime_tz`.  When the offset is present the
result is `timegm` minus the offset.  The `None` branch calls
`time.mktime` on a local time tuple, modelled (without DST) via the
environment's offset; through `parsedate_tz` this branch is unreachable,
since the wrapper replaces `None` by `0`. -/
def mktime_tz (localOff : Int) (t : DateTuple) : Option Int :=
  match t.tzoff with
  | none => (timegm t).map (fun s => s - localOff)
  | some z => (timegm t).map (fun s => s - z)

/-- Month of a zero-based day-of-year (scan equivalent of the month search
in CPython `datetime._ord2ymd`). -/
def monthOfDoy (leap : Bool) (doy : Int) : Int :=
  if doy < daysBeforeMonth leap 2 then 1
  else if doy < daysBeforeMonth leap 3 then 2
  else if doy < daysBeforeMonth leap 4 then 3
  else if doy < daysBeforeMonth leap 5 then 4
  else if doy < daysBeforeMonth leap 6 then 5
  else if doy < daysBeforeMonth leap 7 then 6
  else if doy < daysBeforeMonth leap 8 then 7
  else if doy < daysBeforeMonth leap 9 then 8
  else if doy < daysBeforeMonth leap 10 then 9
  else if doy < daysBeforeMonth leap 11 then 10
  else if doy < daysBeforeMonth leap 12 then 11
  else 12

/-- Date from a proleptic Gregorian ordinal (CPython `datetime._ord2ymd`,
with the month located by scan instead of the `(n + 50) >> 5` estimate). -/
def ord2ymd (n : Int) : Int × Int × Int :=
  let n0 := n - 1
  let n400 := n0.ediv 146097
  let r1 := n0.emod 146097
  let n100 := r1.ediv 36524
  let r2 := r1.emod 36524
  let n4 := r2.ediv 1461
  let r3 := r2.emod 1461
  let n1 := r3.ediv 365
  let r4 := r3.emod 365
  let year := n400 * 400 + 1 + n100 * 100 + n4 * 4 + n1
  if n1 = 4 ∨ n100 = 4 then (year - 1, 12, 31)
  else
    let leap : Bool := n1 == 3 && (n4 != 24 || n100 == 3)
    let m := monthOfDoy leap r4
    (year, m, r4 - daysBeforeMonth leap m + 1)

/-- Embedding of `datetime.datetime.fromtimestamp` (local time): the
timestamp shifted by the environment's offset, split into a civil
date-time; `none` models the exception raised when the result falls
outside years 1-9999. -/
def fromtimestampParts (localOff ts : Int) :
    Option (Int × Int × Int × Int × Int × Int) :=
  let lsec := ts + localOff
  let days := lsec.ediv 86400
  let rem := lsec.emod 86400
  let o := days + epochOrd
  let ymd := ord2ymd o
  if 1 ≤ ymd.1 && ymd.1 ≤ 9999 then
    some (ymd.1, ymd.2.1, ymd.2.2, rem.ediv 3600, (rem.emod 3600).ediv 60, rem.emod 60)
  else none

/-- Two-digit zero padding (`%02d`). -/
def pad2 (n : Int) : String := if n < 10 then "0" ++ toString n else toString n

/-- Two-column space padding (`%2d`). -/
def padSp2 (n : Int) : String := if n < 10 then " " ++ toString n else toString n

/-- Weekday name from an ordinal (`toordinal() % 7 or 7`; ordinal 1,
January 1 of year 1, is a Monday). -/
def weekdayName (o : Int) : String :=
  let w := o.emod 7
  let w := if w = 0 then (7 : Int) else w
  if w = 1 then "Mon" else if w = 2 then "Tue" else if w = 3 then "Wed"
  else if w = 4 then "Thu" else if w = 5 then "Fri" else if w = 6 then "Sat"
  else "Sun"

/-- Month abbreviation used by `ctime`. -/
def monthAbbrev (m : Int) : String :=
  if m = 1 then "Jan" else if m = 2 then "Feb" else if m = 3 then "Mar"
  else if m = 4 then "Apr" else if m = 5 then "May" else if m = 6 then "Jun"
  else if m = 7 then "Jul" else if m = 8 then "Aug" else if m = 9 then "Sep"
  else if m = 10 then "Oct" else if m = 11 then "Nov" else "Dec"

/-- Embedding of `datetime.ctime`: `"%s %s %2d %02d:%02d:%02d %d"`. -/
def ctimeOfParts (y m d hh mi ss : Int) : String :=
  weekdayName (toordinal y m d) ++ " " ++ monthAbbrev m ++ " " ++ padSp2 d
    ++ " " ++ pad2 hh ++ ":" ++ pad2 mi ++ ":" ++ pad2 ss ++ " " ++ toString y

/-- `datetime.datetime.fromtimestamp(ts).ctime()` as composed on source
lines 62-63. -/
def ctimeFromTimestamp (localOff ts : Int) : Option String :=
  (fromtimestampParts localOff ts).map
    (fun p => ctimeOfParts p.1 p.2.1 p.2.2.1 p.2.2.2.1 p.2.2.2.2.1 p.2.2.2.2.2)

example :
    parsedate_tz "Sat, 3 Jan 1970 12:34:56 -0800"
      = some ⟨1970, 1, 3, 12, 34, 56, some (-28800)⟩ := by decide
example : parsedate_tz "garbage" = none := by decide
example : parsedate_tz "" = none := by decide
example :
    (parsedate_tz "Sat, 3 Jan 1970 12:34:56 -0800").bind
      (fun t => mktime_tz (-28800) t) = some 246896 := by decide
example : ctimeFromTimestamp (-28800) 246896 = some "Sat Jan  3 12:34:56 1970" := by
  decide

/-! ### The program itself -/

/-- A parsed mail message, abstracted to the three observations the program
makes of it: `msg.get('From')`, `msg.get('Date')` (each `none` when the
header is absent, `some` of the raw value otherwise) and `msg.as_string()`. -/
structure Msg where
  fromHeader : Option String
  dateHeader : Option String
  asString : String
deriving DecidableEq

/-- The fallback assigned on source line 49 when the From header is missing
or empty.  Note that it is a full header line, not a bare address. -/
def fallbackFromLine : String := "From: unknown@example.com"

/-- The fallback date string of source line 59. -/
def fallbackDateLine : String := "Sat, 3 Jan 1970 12:34:56 -0800"

/-- Source lines 47-49: find or fake the sender's address.  Python
`if not from_line` is true both for a missing header (`None`) and for an
empty value. -/
def fromLineOf (msg : Msg) : String :=
  match msg.fromHeader with
  | none => fallbackFromLine
  | some s => if s = "" then fallbackFromLine else s

/-- Source lines 46-54: the address kept in the envelope line, the found
or faked From value stripped with `re.sub(r'.*<|>.*', '', from_line)`. -/
def envelopeAddress (msg : Msg) : String := pySub (fromLineOf msg)

/-- Source lines 57-59: find or fake the time sent (Python `if not
date_line` is true both for a missing header and for an empty value). -/
def dateLineOf (msg : Msg) : String :=
  match msg.dateHeader with
  | none => fallbackDateLine
  | some s => if s = "" then fallbackDateLine else s

/-- Embedding of `generate_envelope_from` (source lines 31-66).  The
`Except.error` results model the uncaught exceptions of the date pipeline:
`mktime_tz(None)` raises `TypeError` when `parsedate_tz` fails, and
`timegm`/`fromtimestamp` raise for out-of-range values.  `localOff` is the
environment's local-time offset used by `datetime.fromtimestamp`. -/
def generate_envelope_from (localOff : Int) (msg : Msg) : Except String String :=
  match parsedate_tz (dateLineOf msg) with
  | none => Except.error "TypeError"
  | some t =>
    match mktime_tz localOff t with
    | none => Except.error "ValueError"
    | some ts =>
      match ctimeFromTimestamp localOff ts with
      | none => Except.error "OSError"
      | some date_formatted =>
        Except.ok ("From " ++ envelopeAddress msg ++ " " ++ date_formatted)

/-- Embedding of `append_msg_to_mbox` (source lines 68-87) at the level of
the already-parsed message and the output file's contents: on success the
file holds its previous contents followed by the envelope line, a newline,
`msg.as_string()` and a final newline. -/
def append_msg_to_mbox (localOff : Int) (msg : Msg) (mbox : String) :
    Except String String :=
  match generate_envelope_from localOff msg with
  | Except.error e => Except.error e
  | Except.ok from_line =>
    Except.ok (mbox ++ (from_line ++ "\n" ++ msg.asString ++ "\n"))

/-- The complete block one successful `append_msg_to_mbox` call appends for
a message (the `Except.error` branch is never used under the success
hypotheses of the theorems below). -/
def msgBlock (localOff : Int) (msg : Msg) : String :=
  match generate_envelope_from localOff msg with
  | Except.ok from_line => from_line ++ "\n" ++ msg.asString ++ "\n"
  | Except.error _ => ""

/-- Whether `generate_envelope_from` returns without raising. -/
def gefOk (localOff : Int) (msg : Msg) : Bool :=
  match generate_envelope_from localOff msg with
  | Except.ok _ => true
  | Except.error _ => false

/-- Concatenation of a list of strings. -/
def joinStr : List String → String
  | [] => ""
  | s :: l => s ++ joinStr l

/-- Outcome of a program run: `usage` (usage text printed to stdout, exit
status 1), `ok` (normal completion, exit status 0) or `fatal` (uncaught
exception, abnormal termination).  Each outcome records the final checkout
state (the list of messages from the currently checked-out revision
backwards) and the final contents of the output file. -/
inductive ProgResult where
  | usage (stdoutText : String) (hist : List Msg) (mbox : String)
  | ok (hist : List Msg) (mbox : String)
  | fatal (err : String) (hist : List Msg) (mbox : String)
deriving DecidableEq

/-- The message of the exception raised on source line 110. -/
def gitErrMsg : String := "git returned nonzero.  Maybe that was the last message?"

/-- The loop of source lines 103-110.  The external checkout is modelled as
a list whose head is the message currently in the file `m`; `git checkout
-q HEAD^` succeeds exactly when an earlier revision exists, moving to the
tail.  Reading `m` with no revision available is the Appender's fatal read
failure.  A git failure leaves the checkout and the already-written output
untouched. -/
def mainLoop (localOff : Int) : Nat → List Msg → String → ProgResult
  | 0, hist, mbox => ProgResult.ok hist mbox
  | _ + 1, [], mbox => ProgResult.fatal "read failure" [] mbox
  | k + 1, msg :: rest, mbox =>
    match append_msg_to_mbox localOff msg mbox with
    | Except.error e => ProgResult.fatal e (msg :: rest) mbox
    | Except.ok mbox2 =>
      match rest with
      | [] => ProgResult.fatal gitErrMsg (msg :: rest) mbox2
      | _ :: _ => mainLoop localOff k rest mbox2

/-- The usage text printed by source lines 91-98 (one `print` per line). -/
def usageText (argv0 : String) : String :=
  "Usage: " ++ argv0 ++ " <count>\n"
    ++ "Import messages from a LKML-style git repo.\n"
    ++ "Messages will be read from 'm' (how the LKML does it) and appended to 'mbox'.\n"
    ++ "First check out the LAST message you want to read, and then this script will work its way\n"
    ++ "back for <count> messages.\n"
    ++ "for example, to import the last 1000 messages:\n"
    ++ "  $ git checkout origin/master\n"
    ++ "  $ " ++ argv0 ++ " 1000\n"

/-- The `__main__` block (source lines 89-110).  `argv` is the full
`sys.argv` including the program name.  `int(sys.argv[1])` raising
`ValueError` is a fatal uncaught exception; `range(count)` runs
`max(count, 0)` iterations. -/
def mainProg (localOff : Int) (argv : List String) (hist : List Msg)
    (mbox0 : String) : ProgResult :=
  if argv.length ≠ 2 then
    ProgResult.usage (usageText (argv.headD "")) hist mbox0
  else
    match pyInt (argv.getD 1 "") with
    | none => ProgResult.fatal "ValueError: invalid literal for int" hist mbox0
    | some count => mainLoop localOff count.toNat hist mbox0

example : pySub "John Doe <jdoe@example.com>" = "jdoe@example.com" := by decide
example : pySub "From: unknown@example.com" = "From: unknown@example.com" := by decide
example : pySub "a<b<c>d" = "c" := by decide
example : pyInt "-5" = some (-5) := by decide
example : pyInt " +12 " = some 12 := by decide
example : pyInt "1_0" = some 10 := by decide
example : pyInt "" = none := by decide
example : pyWords "  a  b " = ["a", "b"] := by decide

/-! ### Helper lemmas -/

/-- `generate_envelope_from` observes a message only through its date line
and its envelope address. -/
theorem gef_congr (localOff : Int) (m1 m2 : Msg)
    (hd : dateLineOf m1 = dateLineOf m2)
    (ha : envelopeAddress m1 = envelopeAddress m2) :
    generate_envelope_from localOff m1 = generate_envelope_from localOff m2 := by
  unfold generate_envelope_from
  rw [hd, ha]

/-! ### Claim C2 (code bug)

The claim and the source's own comment on line 65 expect the envelope line
for a message without a `From` header to read
`From unknown@example.com <ctime>`.  The fallback assigned on line 49 is
the full header line `From: unknown@example.com`; since it contains no
angle brackets, `re.sub(r'.*<|>.*', '', ...)` leaves it unchanged, so the
produced envelope line is `From From: unknown@example.com <ctime>`. -/

/-- C2: evaluation at the failing input.  For a message with no From
header (local offset -28800, the PST environment of the source comments)
the envelope line is `From From: unknown@example.com Sat Jan  3 12:34:56
1970`, and the address token is not the bare fallback address
`unknown@example.com` the claim describes. -/
theorem missing_from_envelope_line_eval :
    generate_envelope_from (-28800) ⟨none, none, "Hello\n"⟩
        = Except.ok "From From: unknown@example.com Sat Jan  3 12:34:56 1970"
      ∧ envelopeAddress ⟨none, none, "Hello\n"⟩ ≠ "unknown@example.com" := by
  decide

/-! ### Claim C6 -/

/-- C6: every successful `append_msg_to_mbox` call appends to the output
file, in order, the envelope line, a newline, the serialized message
`msg.as_string()`, and a final newline (the blank-line separator before
the next envelope line). -/
theorem append_block_structure (localOff : Int) (msg : Msg) (mbox envLine : String)
    (h : generate_envelope_from localOff msg = Except.ok envLine) :
    append_msg_to_mbox localOff msg mbox
      = Except.ok (mbox ++ (envLine ++ "\n" ++ msg.asString ++ "\n")) := by
  unfold append_msg_to_mbox
  rw [h]

/-- Witness for C6 at a concrete message and output file. -/
theorem append_block_structure_witness :
    generate_envelope_from (-28800) ⟨none, none, "Subject: x\n\nHello\n"⟩
        = Except.ok "From From: unknown@example.com Sat Jan  3 12:34:56 1970"
      ∧ append_msg_to_mbox (-28800) ⟨none, none, "Subject: x\n\nHello\n"⟩ "OLD"
        = Except.ok ("OLD" ++ ("From From: unknown@example.com Sat Jan  3 12:34:56 1970"
            ++ "\n" ++ (Msg.mk none none "Subject: x\n\nHello\n").asString ++ "\n")) :=
  ⟨by decide,
   append_block_structure (-28800) ⟨none, none, "Subject: x\n\nHello\n"⟩ "OLD"
     "From From: unknown@example.com Sat Jan  3 12:34:56 1970" (by decide)⟩

/-! ### Claim C8 -/

/-- C8: every successful `append_msg_to_mbox` call leaves all previously
written content of the output file unchanged: the new contents are the old
contents followed by some appended text, so the file grows monotonically
and is never truncated or rewritten. -/
theorem append_preserves_previous_content (localOff : Int) (msg : Msg)
    (mbox newMbox : String)
    (h : append_msg_to_mbox localOff msg mbox = Except.ok newMbox) :
    ∃ t, newMbox = mbox ++ t := by
  unfold append_msg_to_mbox at h
  cases hg : generate_envelope_from localOff msg with
  | error e => rw [hg] at h; exact Except.noConfusion h
  | ok v =>
    rw [hg] at h
    injection h with h2
    exact ⟨v ++ "\n" ++ msg.asString ++ "\n", h2.symm⟩

/-- Witness for C8 at a concrete message and output file. -/
theorem append_preserves_previous_content_witness :
    ∃ t, "OLDFrom From: unknown@example.com Sat Jan  3 12:34:56 1970\nB\n\n"
      = "OLD" ++ t :=
  append_preserves_previous_content (-28800) ⟨none, none, "B\n"⟩ "OLD"
    "OLDFrom From: unknown@example.com Sat Jan  3 12:34:56 1970\nB\n\n" (by decide)

/-! ### Claim C7 -/

/-- C7: invoked with an argument count other than exactly one (an `argv`
whose length, program name included, is not 2), the program prints the
usage text to standard output and exits with status 1, leaving the output
file and the checkout untouched and running no iteration. -/
theorem wrong_arity_usage_exit (localOff : Int) (argv : List String)
    (hist : List Msg) (mbox0 : String) (h : argv.length ≠ 2) :
    mainProg localOff argv hist mbox0
      = ProgResult.usage (usageText (argv.headD "")) hist mbox0 := by
  unfold mainProg
  rw [if_pos h]

/-- Witness for C7: zero arguments and two arguments. -/
theorem wrong_arity_usage_exit_witness :
    mainProg 0 ["./lkml-to-mbox.py"] [] "old"
        = ProgResult.usage (usageText "./lkml-to-mbox.py") [] "old"
      ∧ mainProg 0 ["./lkml-to-mbox.py", "3", "4"] [] "old"
        = ProgResult.usage (usageText "./lkml-to-mbox.py") [] "old" :=
  ⟨wrong_arity_usage_exit 0 ["./lkml-to-mbox.py"] [] "old" (by decide),
   wrong_arity_usage_exit 0 ["./lkml-to-mbox.py", "3", "4"] [] "old" (by decide)⟩

/-! ### Claim C9 -/

/-- C9: invoked with exactly one argument that parses as an integer `c ≤ 0`,
the program runs zero loop iterations and exits normally with status 0:
the checkout is never advanced, nothing is read, and the output file is
unchanged (the result is `ok` even for an empty history, where any read
would have failed). -/
theorem nonpositive_count_no_iterations (localOff : Int) (prog arg : String)
    (hist : List Msg) (mbox0 : String) (c : Int)
    (hparse : pyInt arg = some c) (hc : c ≤ 0) :
    mainProg localOff [prog, arg] hist mbox0 = ProgResult.ok hist mbox0 := by
  unfold mainProg
  rw [if_neg (by simp)]
  show (match pyInt ([prog, arg].getD 1 "") with
    | none => ProgResult.fatal "ValueError: invalid literal for int" hist mbox0
    | some count => mainLoop localOff count.toNat hist mbox0) = ProgResult.ok hist mbox0
  have hget : ([prog, arg].getD 1 "") = arg := rfl
  rw [hget, hparse]
  show mainLoop localOff c.toNat hist mbox0 = ProgResult.ok hist mbox0
  rw [Int.toNat_of_nonpos hc]
  cases hist <;> rfl

/-- Witness for C9 with the argument `"-5"` and an empty history. -/
theorem nonpositive_count_no_iterations_witness :
    pyInt "-5" = some (-5)
      ∧ mainProg 0 ["./lkml-to-mbox.py", "-5"] [] "old" = ProgResult.ok [] "old" :=
  ⟨by decide,
   nonpositive_count_no_iterations 0 "./lkml-to-mbox.py" "-5" [] "old" (-5)
     (by decide) (by decide)⟩

/-! ### Claim C10 -/

/-- C10: a message whose From header is present with an empty value takes
the same fallback path as a message with no From header at all: Python
`if not from_line` is true for both, so `generate_envelope_from` gives
identical results. -/
theorem empty_from_treated_as_absent (localOff : Int) (msg : Msg)
    (h : msg.fromHeader = some "") :
    generate_envelope_from localOff msg
      = generate_envelope_from localOff { msg with fromHeader := none } := by
  obtain ⟨f, d, a⟩ := msg
  have hf : f = some "" := h
  subst hf
  exact gef_congr localOff _ _ rfl rfl

/-- Witness for C10 at a concrete message. -/
theorem empty_from_treated_as_absent_witness :
    generate_envelope_from (-28800) ⟨some "", none, "B"⟩
      = generate_envelope_from (-28800) ⟨none, none, "B"⟩ :=
  empty_from_treated_as_absent (-28800) ⟨some "", none, "B"⟩ rfl

/-! ### Claim C1 (corrected)

The claim states that a Date header that is present but unparsable is
treated like an absent one (fallback, no error).  In the code only a
missing or empty Date is replaced by the fallback (lines 58-59); for a
present nonempty value that `parsedate_tz` cannot parse, `parsedate_tz`
returns `None` and `mktime_tz(None)` on line 61 raises an uncaught
`TypeError`, so malformed dates are not treated like absent ones. -/

/-- Counterexample to C1 as stated: `"garbage"` is a Date value that fails
to parse, and on a message carrying it `generate_envelope_from` raises
(models the `TypeError` from `mktime_tz(None)`) instead of using the
fallback and returning normally. -/
theorem malformed_date_raises_cex :
    parsedate_tz "garbage" = none
      ∧ generate_envelope_from (-28800) ⟨some "a@b.c", some "garbage", "B"⟩
          = Except.error "TypeError" := by
  decide

/-- C1 (amended): an absent Date header is replaced by the fixed fallback
date string, so the result equals that of the same message carrying the
fallback date; but a Date header that is present with a nonempty value on
which `parsedate_tz` fails makes `generate_envelope_from` raise a
`TypeError` to its caller — malformed Date values are not treated like
absent ones. -/
theorem date_fallback_only_when_absent (localOff : Int) (msg : Msg) :
    (msg.dateHeader = none →
      generate_envelope_from localOff msg
        = generate_envelope_from localOff { msg with dateHeader := some fallbackDateLine })
    ∧ (∀ d, msg.dateHeader = some d → d ≠ "" → parsedate_tz d = none →
      generate_envelope_from localOff msg = Except.error "TypeError") := by
  obtain ⟨f, dd, a⟩ := msg
  constructor
  · intro h
    have hdd : dd = none := h
    subst hdd
    exact gef_congr localOff _ _ rfl rfl
  · intro d h1 h2 h3
    have hdd : dd = some d := h1
    subst hdd
    unfold generate_envelope_from
    have hdl : dateLineOf ⟨f, some d, a⟩ = d := by
      show (if d = "" then fallbackDateLine else d) = d
      exact if_neg h2
    rw [hdl, h3]

/-- Witness for the amended C1: an absent Date behaves like the fallback
date string (and returns normally), and the unparsable value
`"not a date"` raises. -/
theorem date_fallback_only_when_absent_witness :
    (generate_envelope_from (-28800) ⟨some "x@y", none, "B"⟩
        = generate_envelope_from (-28800) ⟨some "x@y", some fallbackDateLine, "B"⟩)
      ∧ generate_envelope_from (-28800) ⟨some "x@y", some "not a date", "B"⟩
        = Except.error "TypeError" :=
  ⟨(date_fallback_only_when_absent (-28800) ⟨some "x@y", none, "B"⟩).1 rfl,
   (date_fallback_only_when_absent (-28800) ⟨some "x@y", some "not a date", "B"⟩).2
     "not a date" rfl (by decide) (by decide)⟩

/-! ### Loop lemmas for the History Walker claims -/

/-- A successful append in terms of `msgBlock`. -/
theorem append_eq_of_gef_ok (localOff : Int) (msg : Msg) (mbox e : String)
    (h : generate_envelope_from localOff msg = Except.ok e) :
    append_msg_to_mbox localOff msg mbox
      = Except.ok (mbox ++ msgBlock localOff msg) := by
  unfold append_msg_to_mbox msgBlock
  rw [h]

/-- A true `gefOk` yields the successful envelope line. -/
theorem gefOk_exists (localOff : Int) (msg : Msg) (h : gefOk localOff msg = true) :
    ∃ e, generate_envelope_from localOff msg = Except.ok e := by
  cases hg : generate_envelope_from localOff msg with
  | ok v => exact ⟨v, rfl⟩
  | error er =>
    exfalso
    simp [gefOk, hg] at h

/-- One successful iteration with a further revision available steps to the
tail of the history. -/
theorem mainLoop_cons_step (localOff : Int) (k : Nat) (m r : Msg) (rs : List Msg)
    (mbox mbox2 : String)
    (h : append_msg_to_mbox localOff m mbox = Except.ok mbox2) :
    mainLoop localOff (k + 1) (m :: r :: rs) mbox
      = mainLoop localOff k (r :: rs) mbox2 := by
  simp only [mainLoop]
  rw [h]

/-- A successful iteration on the last available revision appends its block
and then fails on the git step-back. -/
theorem mainLoop_last_git_fail (localOff : Int) (k : Nat) (m : Msg)
    (mbox mbox2 : String)
    (h : append_msg_to_mbox localOff m mbox = Except.ok mbox2) :
    mainLoop localOff (k + 1) [m] mbox = ProgResult.fatal gitErrMsg [m] mbox2 := by
  simp only [mainLoop]
  rw [h]

/-! ### Claim C3 -/

/-- C3: running the main loop with `count = K` when every one of the `K`
message reads (including envelope generation) and `K` git step-backs
succeeds — that is, at least `K + 1` revisions are available and the first
`K` messages generate their envelopes — appends exactly the `K` blocks of
the visited messages, in checkout-visitation order, to the output file,
advances the checkout `K` steps backward, and completes normally (exit
status 0). -/
theorem mainLoop_all_success (localOff : Int) (K : Nat) (hist : List Msg)
    (mbox0 : String) (hlen : K + 1 ≤ hist.length)
    (hok : ∀ m ∈ hist.take K, gefOk localOff m = true) :
    mainLoop localOff K hist mbox0
      = ProgResult.ok (hist.drop K)
          (mbox0 ++ joinStr ((hist.take K).map (msgBlock localOff))) := by
  induction K generalizing hist mbox0 with
  | zero =>
    have h1 : mainLoop localOff 0 hist mbox0 = ProgResult.ok hist mbox0 := by
      cases hist <;> rfl
    rw [h1]
    simp [joinStr, String.append_empty]
  | succ k ih =>
    cases hist with
    | nil => simp at hlen
    | cons m rest =>
      have hm : gefOk localOff m = true := by
        apply hok m
        rw [List.take_succ_cons]
        exact List.mem_cons_self m _
      obtain ⟨e, hgef⟩ := gefOk_exists localOff m hm
      cases rest with
      | nil => simp at hlen
      | cons r rs =>
        rw [mainLoop_cons_step localOff k m r rs mbox0 _
          (append_eq_of_gef_ok localOff m mbox0 e hgef)]
        rw [ih (r :: rs) (mbox0 ++ msgBlock localOff m)
          (by simp at hlen ⊢; omega)
          (by
            intro m2 hm2
            apply hok m2
            rw [List.take_succ_cons]
            exact List.mem_cons_of_mem m hm2)]
        rw [List.take_succ_cons, List.drop_succ_cons, List.map_cons]
        show _ = ProgResult.ok _
          (mbox0 ++ (msgBlock localOff m ++ joinStr (((r :: rs).take k).map (msgBlock localOff))))
        rw [String.append_assoc]

/-- Witness for C3: two revisions available, `count = 1`; the run appends
exactly one block, steps back once, and exits normally. -/
theorem mainLoop_all_success_witness :
    (1 + 1 ≤ ([⟨none, none, "A\n"⟩, ⟨none, none, "B\n"⟩] : List Msg).length)
      ∧ mainLoop (-28800) 1 [⟨none, none, "A\n"⟩, ⟨none, none, "B\n"⟩] ""
        = ProgResult.ok [⟨none, none, "B\n"⟩]
            "From From: unknown@example.com Sat Jan  3 12:34:56 1970\nA\n\n" :=
  ⟨by decide,
   (mainLoop_all_success (-28800) 1 [⟨none, none, "A\n"⟩, ⟨none, none, "B\n"⟩] ""
     (by decide) (by decide)).trans (by decide)⟩

/-! ### Claim C4 -/

/-- C4: when the git step-back command fails (which in a history of `L ≤ K`
available revisions happens on the `L`-th iteration, the tail being
exhausted), the program raises the fatal git error immediately after the
check: no further iteration runs, the output already written is neither
modified nor rolled back, and the output file holds exactly the complete
blocks of all messages appended before the failure — no partial block.
The checkout remains on the revision where the step-back failed. -/
theorem mainLoop_git_exhaustion (localOff : Int) (K : Nat) (hist : List Msg)
    (mbox0 : String) (h1 : 1 ≤ hist.length) (h2 : hist.length ≤ K)
    (hok : ∀ m ∈ hist, gefOk localOff m = true) :
    mainLoop localOff K hist mbox0
      = ProgResult.fatal gitErrMsg (hist.drop (hist.length - 1))
          (mbox0 ++ joinStr (hist.map (msgBlock localOff))) := by
  induction hist generalizing K mbox0 with
  | nil => simp at h1
  | cons m rest ih =>
    have hm : gefOk localOff m = true := hok m (List.mem_cons_self m _)
    obtain ⟨e, hgef⟩ := gefOk_exists localOff m hm
    cases rest with
    | nil =>
      obtain ⟨k, rfl⟩ : ∃ k, K = k + 1 := ⟨K - 1, by simp at h2; omega⟩
      rw [mainLoop_last_git_fail localOff k m mbox0 _
        (append_eq_of_gef_ok localOff m mbox0 e hgef)]
      simp [joinStr, String.append_empty]
    | cons r rs =>
      obtain ⟨k, rfl⟩ : ∃ k, K = k + 1 := ⟨K - 1, by simp at h2; omega⟩
      rw [mainLoop_cons_step localOff k m r rs mbox0 _
        (append_eq_of_gef_ok localOff m mbox0 e hgef)]
      rw [ih k (mbox0 ++ msgBlock localOff m) (by simp)
        (by simp at h2 ⊢; omega)
        (fun m2 hm2 => hok m2 (List.mem_cons_of_mem m hm2))]
      simp [joinStr, String.append_assoc]

/-- Witness for C4: two revisions available but `count = 5`; both blocks
are appended whole, then the run aborts with the git error, the checkout
still on the last revision. -/
theorem mainLoop_git_exhaustion_witness :
    (1 ≤ ([⟨none, none, "A\n"⟩, ⟨none, none, "B\n"⟩] : List Msg).length)
      ∧ mainLoop (-28800) 5 [⟨none, none, "A\n"⟩, ⟨none, none, "B\n"⟩] ""
        = ProgResult.fatal gitErrMsg [⟨none, none, "B\n"⟩]
            ("From From: unknown@example.com Sat Jan  3 12:34:56 1970\nA\n\n"
              ++ "From From: unknown@example.com Sat Jan  3 12:34:56 1970\nB\n\n") :=
  ⟨by decide,
   (mainLoop_git_exhaustion (-28800) 5 [⟨none, none, "A\n"⟩, ⟨none, none, "B\n"⟩] ""
     (by decide) (by decide) (by decide)).trans (by decide)⟩

/-! ### Behaviour of `re.sub(r'.*<|>.*', '', s)` on the address shapes of
claim C5 -/

/-- The substitution loop maps the empty list to itself at any fuel. -/
theorem reSubAux_nil (fuel : Nat) : reSubAux fuel [] = [] := by
  cases fuel <;> rfl

/-- Characters of the current line are characters of the list. -/
theorem mem_of_mem_takeLine (a : Char) (cs : List Char) (h : a ∈ takeLine cs) :
    a ∈ cs :=
  (List.takeWhile_sublist _).subset h

/-- `takeLine` keeps a head character that is not a newline. -/
theorem takeLine_cons_ne (c : Char) (cs : List Char) (h : c ≠ '\n') :
    takeLine (c :: cs) = c :: takeLine cs := by
  unfold takeLine
  rw [List.takeWhile_cons, if_pos (bne_iff_ne.mpr h)]

/-- `takeLine` passes over a newline-free chunk up to a `<`. -/
theorem takeLine_append_lt (name rest : List Char) (h : '\n' ∉ name) :
    takeLine (name ++ '<' :: rest) = name ++ '<' :: takeLine rest := by
  induction name with
  | nil =>
    show takeLine ('<' :: rest) = '<' :: takeLine rest
    exact takeLine_cons_ne '<' rest (by decide)
  | cons c cs ih =>
    have hc : c ≠ '\n' := fun hh => h (hh ▸ List.mem_cons_self c cs)
    show takeLine (c :: (cs ++ '<' :: rest)) = c :: (cs ++ '<' :: takeLine rest)
    rw [takeLine_cons_ne c _ hc, ih (fun hm => h (List.mem_cons_of_mem c hm))]

/-- `lastIdxOf` misses an absent character. -/
theorem lastIdxOf_of_not_mem (x : Char) (cs : List Char) (h : x ∉ cs) :
    lastIdxOf x cs = none := by
  induction cs with
  | nil => rfl
  | cons c cs ih =>
    have h1 : x ∉ cs := fun hm => h (List.mem_cons_of_mem c hm)
    have h2 : (c == x) = false :=
      beq_eq_false_iff_ne.mpr (fun hh => h (hh ▸ List.mem_cons_self c cs))
    simp [lastIdxOf, ih h1, h2]

/-- `lastIdxOf` finds the position of the unique occurrence. -/
theorem lastIdxOf_unique (name tail : List Char) (h1 : '<' ∉ name)
    (h2 : '<' ∉ tail) : lastIdxOf '<' (name ++ '<' :: tail) = some name.length := by
  induction name with
  | nil => simp [lastIdxOf, lastIdxOf_of_not_mem '<' tail h2]
  | cons c cs ih =>
    have hc : '<' ∉ cs := fun hm => h1 (List.mem_cons_of_mem c hm)
    show lastIdxOf '<' (c :: (cs ++ '<' :: tail)) = some (cs.length + 1)
    simp [lastIdxOf, ih hc]

/-- A bracket-free and newline-free region is emitted unchanged: no
alternative of the pattern can match inside it. -/
theorem reSubAux_no_bracket (fuel : Nat) (cs : List Char) (hf : cs.length ≤ fuel)
    (h1 : '<' ∉ cs) (h2 : '>' ∉ cs) : reSubAux fuel cs = cs := by
  induction fuel generalizing cs with
  | zero =>
    cases cs with
    | nil => rfl
    | cons c cs2 => simp at hf
  | succ f ih =>
    cases cs with
    | nil => rfl
    | cons c cs2 =>
      have hnone : lastIdxOf '<' (takeLine (c :: cs2)) = none :=
        lastIdxOf_of_not_mem '<' _ (fun hm => h1 (mem_of_mem_takeLine _ _ hm))
      have hcgt : (c == '>') = false :=
        beq_eq_false_iff_ne.mpr (fun hh => h2 (hh ▸ List.mem_cons_self c cs2))
      simp only [reSubAux, hnone, hcgt, Bool.false_eq_true, if_false]
      rw [ih cs2 (by simp at hf; omega)
        (fun hm => h1 (List.mem_cons_of_mem c hm))
        (fun hm => h2 (List.mem_cons_of_mem c hm))]

/-- Scanning a bracket-free region followed by a single `>` ends the match
`>.*` at that `>` and yields exactly the region. -/
theorem reSubAux_emit_to_gt (cs : List Char) (fuel : Nat)
    (h1 : '<' ∉ cs) (h2 : '>' ∉ cs) (hf : cs.length + 1 ≤ fuel) :
    reSubAux fuel (cs ++ ['>']) = cs := by
  induction cs generalizing fuel with
  | nil =>
    obtain ⟨f, rfl⟩ : ∃ f, fuel = f + 1 := ⟨fuel - 1, by omega⟩
    show reSubAux (f + 1) ['>'] = []
    rw [show reSubAux (f + 1) ['>'] = reSubAux f [] from rfl, reSubAux_nil]
  | cons c cs2 ih =>
    obtain ⟨f, rfl⟩ : ∃ f, fuel = f + 1 := ⟨fuel - 1, by omega⟩
    have hmem : '<' ∉ (c :: (cs2 ++ ['>'])) := by
      intro hm
      rcases List.mem_cons.mp hm with h | h
      · exact h1 (h ▸ List.mem_cons_self c cs2)
      · rcases List.mem_append.mp h with h | h
        · exact h1 (List.mem_cons_of_mem c h)
        · rw [List.mem_singleton] at h
          exact absurd h (by decide)
    have hnone : lastIdxOf '<' (takeLine (c :: (cs2 ++ ['>']))) = none :=
      lastIdxOf_of_not_mem '<' _ (fun hm => hmem (mem_of_mem_takeLine _ _ hm))
    have hcgt : (c == '>') = false :=
      beq_eq_false_iff_ne.mpr (fun hh => h2 (hh ▸ List.mem_cons_self c cs2))
    show reSubAux (f + 1) (c :: (cs2 ++ ['>'])) = c :: cs2
    simp only [reSubAux, hnone, hcgt, Bool.false_eq_true, if_false]
    rw [ih f (fun hm => h1 (List.mem_cons_of_mem c hm))
      (fun hm => h2 (List.mem_cons_of_mem c hm)) (by simp at hf; omega)]

/-- At a position whose line still contains a `<`, the preferred greedy
alternative `.*<` consumes everything through the last `<`. -/
theorem reSubAux_lt_match (f : Nat) (name rest : List Char)
    (h1 : '<' ∉ name) (h2 : '\n' ∉ name) (h3 : '<' ∉ rest) :
    reSubAux (f + 1) (name ++ '<' :: rest) = reSubAux f rest := by
  cases name with
  | nil =>
    show reSubAux (f + 1) ('<' :: rest) = reSubAux f rest
    have hl : lastIdxOf '<' (takeLine ('<' :: rest)) = some 0 := by
      rw [takeLine_cons_ne '<' rest (by decide)]
      exact lastIdxOf_unique [] (takeLine rest) (by simp)
        (fun hm => h3 (mem_of_mem_takeLine _ _ hm))
    simp only [reSubAux, hl]
    rfl
  | cons c cs =>
    have hl : lastIdxOf '<' (takeLine (c :: (cs ++ '<' :: rest)))
        = some (cs.length + 1) := by
      rw [show c :: (cs ++ '<' :: rest) = (c :: cs) ++ '<' :: rest from
        (List.cons_append c cs _).symm]
      rw [takeLine_append_lt (c :: cs) rest h2]
      have hu := lastIdxOf_unique (c :: cs) (takeLine rest) h1
        (fun hm => h3 (mem_of_mem_takeLine _ _ hm))
      simpa using hu
    show reSubAux (f + 1) (c :: (cs ++ '<' :: rest)) = reSubAux f rest
    simp only [reSubAux, hl]
    have hdrop : List.drop (cs.length + 1 + 1) (c :: (cs ++ '<' :: rest)) = rest := by
      rw [List.drop_succ_cons,
        show cs.length + 1 = (cs ++ ['<']).length by simp,
        show cs ++ '<' :: rest = (cs ++ ['<']) ++ rest by simp]
      exact List.drop_left _ _
    rw [hdrop]

/-- A string with no angle brackets passes through the substitution
unchanged. -/
theorem pySub_no_brackets (s : String) (h1 : '<' ∉ s.data) (h2 : '>' ∉ s.data) :
    pySub s = s := by
  obtain ⟨cs⟩ := s
  show String.mk (reSubAux cs.length cs) = String.mk cs
  rw [reSubAux_no_bracket cs.length cs (le_refl _) h1 h2]

/-- On `Name<addr>` (the `<` unique outside the bracket-free `addr`, the
name newline-free) the substitution keeps exactly `addr`. -/
theorem pySub_extracts_bracketed (name addr : List Char)
    (h1 : '<' ∉ name) (h2 : '\n' ∉ name) (h3 : '<' ∉ addr) (h4 : '>' ∉ addr) :
    pySub (String.mk (name ++ '<' :: (addr ++ ['>']))) = String.mk addr := by
  have h3' : '<' ∉ (addr ++ ['>']) := by
    intro hm
    rcases List.mem_append.mp hm with h | h
    · exact h3 h
    · rw [List.mem_singleton] at h
      exact absurd h (by decide)
  show String.mk (reSubAux (name ++ '<' :: (addr ++ ['>'])).length
    (name ++ '<' :: (addr ++ ['>']))) = String.mk addr
  have hlen : (name ++ '<' :: (addr ++ ['>'])).length
      = (name.length + addr.length + 1) + 1 := by
    simp
    omega
  rw [hlen, reSubAux_lt_match (name.length + addr.length + 1) name (addr ++ ['>'])
    h1 h2 h3',
    reSubAux_emit_to_gt addr _ h3 h4 (by omega)]

/-! ### Claim C5 (corrected)

The claim's second half quantifies over every From header value without
angle brackets and asserts the envelope address equals the raw value
unchanged.  The empty value has no angle brackets, yet Python
`if not from_line` sends it down the fallback path (line 49), so its
envelope address is the fallback `From: unknown@example.com`, not `""`.
For nonempty values both halves hold. -/

/-- Counterexample to C5 as stated: the empty string contains no angle
brackets, but the envelope address of a message whose From header value is
empty is not the raw value `""`. -/
theorem no_brackets_empty_value_cex :
    ('<' ∉ ("" : String).data ∧ '>' ∉ ("" : String).data)
      ∧ envelopeAddress ⟨some "", none, "B"⟩ ≠ "" := by
  decide

/-- C5 (amended): for every message whose From header value has the form
`Name<addr>` (name free of `<` and newlines, addr free of angle brackets)
the envelope address is exactly `addr`; and for every message whose From
header value is **nonempty** and contains no angle brackets, the envelope
address is the raw value unchanged (the empty value instead takes the
missing-header fallback path, claim C10). -/
theorem from_address_extraction (msg : Msg) :
    (∀ name addr : List Char,
      msg.fromHeader = some (String.mk (name ++ '<' :: (addr ++ ['>']))) →
      '<' ∉ name → '\n' ∉ name → '<' ∉ addr → '>' ∉ addr →
      envelopeAddress msg = String.mk addr)
    ∧ (∀ s : String, msg.fromHeader = some s → s ≠ "" →
      '<' ∉ s.data → '>' ∉ s.data →
      envelopeAddress msg = s) := by
  constructor
  · intro name addr h hn1 hn2 ha1 ha2
    have hne : String.mk (name ++ '<' :: (addr ++ ['>'])) ≠ "" := by
      intro hh
      have hdata : (name ++ '<' :: (addr ++ ['>'])) = [] := congrArg String.data hh
      simp at hdata
    have hfl : fromLineOf msg = String.mk (name ++ '<' :: (addr ++ ['>'])) := by
      unfold fromLineOf
      rw [h]
      exact if_neg hne
    unfold envelopeAddress
    rw [hfl]
    exact pySub_extracts_bracketed name addr hn1 hn2 ha1 ha2
  · intro s h hs h1 h2
    have hfl : fromLineOf msg = s := by
      unfold fromLineOf
      rw [h]
      exact if_neg hs
    unfold envelopeAddress
    rw [hfl]
    exact pySub_no_brackets s h1 h2

/-- Witness for the amended C5: the spec's own example
`From: J Doe <jdoe@x.com>` yields `jdoe@x.com`, and the bare value
`jdoe@x.com` passes through unchanged. -/
theorem from_address_extraction_witness :
    envelopeAddress ⟨some "J Doe <jdoe@x.com>", none, "B"⟩ = "jdoe@x.com"
      ∧ envelopeAddress ⟨some "jdoe@x.com", none, "B"⟩ = "jdoe@x.com" :=
  ⟨((from_address_extraction ⟨some "J Doe <jdoe@x.com>", none, "B"⟩).1
      "J Doe ".data "jdoe@x.com".data (by decide) (by decide) (by decide)
      (by decide) (by decide)).trans (by decide),
   (from_address_extraction ⟨some "jdoe@x.com", none, "B"⟩).2
      "jdoe@x.com" rfl (by decide) (by decide) (by decide)⟩

end LkmlToMbox
